import Mathlib

/-!
Verification of the filter-and-aggregate pipeline of the
SentimentAnalysiswithShippingApp dashboard (src/streamlit_app.py).

The pipeline is embedded shallowly:

* a pandas DataFrame of review records becomes a `Table`: a list of `Row`s
  together with flags recording which optional columns are present;
* `DATE` cells are modelled after the `pd.to_datetime(..., errors="coerce")`
  coercion of line 45: a cell is `some d` (a parseable date, day number as an
  integer) or `none` (missing / unparseable, pandas `NaT`);
* `SENTIMENT_SCORE` is modelled as a rational number;
* `df['PRODUCT'].unique()` (line 40) keeps the first occurrence of each value,
  modelled by `uniqueFirst`;
* the product/date filter of lines 57-60 becomes `filterTable`; the widget
  default interval of lines 44-54 becomes `defaultInterval` (observed min/max
  of the coerced dates; `None` when the column is absent, matching line 54);
* `groupby` (lines 73 and 92) sorts its keys ascending (pandas `sort=True`
  default) and emits one group per observed key; `sort_values` (line 73)
  becomes a stable insertion sort by mean, matching numpy's small-array
  insertion sort on the grouped series;
* `to_string(index=False)` (line 120) becomes `to_string`: header line plus
  one line per row, each a space-joined rendering of the present columns, and
  the prompt f-string of line 121 becomes `buildPrompt`.
-/

namespace ShippingApp

/-- A review record (one row of the `reviews_with_sentiment` table), after the
`pd.to_datetime` coercion of line 45: `date = none` models a missing or
unparseable `DATE` cell (pandas `NaT`). -/
structure Row where
  product : String
  region : String
  status : String
  date : Option Int
  sentiment_score : Rat
deriving DecidableEq, Repr

/-- The reviews table: rows plus flags recording which columns exist on the
DataFrame (`"DATE" in df.columns` etc.). -/
structure Table where
  hasProduct : Bool
  hasRegion : Bool
  hasStatus : Bool
  hasDate : Bool
  hasSentiment : Bool
  rows : List Row
deriving DecidableEq, Repr

/-- `Series.unique()`: distinct values in first-occurrence order (line 40). -/
def uniqueFirst {α : Type} [DecidableEq α] : List α → List α
  | [] => []
  | a :: l => a :: uniqueFirst (l.filter (fun b => decide (b ≠ a)))
termination_by l => l.length
decreasing_by
  exact Nat.lt_succ_of_le (List.length_filter_le _ _)

/-- Insertion step of a stable insertion sort by a boolean comparator. -/
def insertLe {α : Type} (le : α → α → Bool) (a : α) : List α → List α
  | [] => [a]
  | b :: l => if le a b then a :: b :: l else b :: insertLe le a l

/-- Stable insertion sort by a boolean comparator: an element is inserted in
front of the elements it compares `le` to, so earlier input elements stay in
front of later equal ones. -/
def isort {α : Type} (le : α → α → Bool) : List α → List α
  | [] => []
  | a :: l => insertLe le a (isort le l)

/-- Comparator for pandas' groupby key sort on strings (code-point order). -/
def strLe (a b : String) : Bool := decide (a ≤ b)

/-- Comparator used by `sort_values()` on the grouped series: compare means. -/
def meanLe (p q : String × Rat) : Bool := decide (p.2 ≤ q.2)

/-- Lexicographic comparator for (REGION, PRODUCT, STATUS) groupby keys. -/
def tripleLe (p q : String × String × String) : Bool :=
  decide (p.1 < q.1) ||
    (decide (p.1 = q.1) &&
      (decide (p.2.1 < q.2.1) ||
        (decide (p.2.1 = q.2.1) && decide (p.2.2 ≤ q.2.2))))

/-- Line 40: `products = df['PRODUCT'].unique()`. -/
def products (t : Table) : List String :=
  uniqueFirst (t.rows.map Row.product)

/-- The date predicate of lines 59-60: `NaT` compares false, so rows with a
missing or unparseable date fail it. -/
def datePred (s e : Int) (r : Row) : Bool :=
  match r.date with
  | none => false
  | some d => decide (s ≤ d) && decide (d ≤ e)

/-- Lines 57-60: keep rows whose `PRODUCT` is in the selection, then, when an
interval is active (`if start_date and end_date:`), keep rows whose `DATE` lies
in `[start, end]` inclusive. -/
def filterTable (t : Table) (selected : List String)
    (interval : Option (Int × Int)) : Table :=
  let base := t.rows.filter (fun r => decide (r.product ∈ selected))
  match interval with
  | none => { t with rows := base }
  | some (s, e) => { t with rows := base.filter (datePred s e) }

/-- Minimum of a list of dates (`Series.min()` skips `NaT`; `none` on empty). -/
def minList : List Int → Option Int
  | [] => none
  | d :: l =>
    match minList l with
    | none => some d
    | some m => some (min d m)

/-- Maximum of a list of dates (`Series.max()` skips `NaT`; `none` on empty). -/
def maxList : List Int → Option Int
  | [] => none
  | d :: l =>
    match maxList l with
    | none => some d
    | some m => some (max d m)

/-- Line 46: `df["DATE"].min()` after coercion — `NaT` cells are skipped. -/
def minDate (t : Table) : Option Int :=
  minList (t.rows.filterMap Row.date)

/-- Line 46: `df["DATE"].max()` after coercion — `NaT` cells are skipped. -/
def maxDate (t : Table) : Option Int :=
  maxList (t.rows.filterMap Row.date)

/-- Lines 44-54: when a `DATE` column exists the date widget defaults to the
observed min/max range; otherwise `start_date, end_date = None, None`. -/
def defaultInterval (t : Table) : Option (Int × Int) :=
  if t.hasDate then
    match minDate t, maxDate t with
    | some s, some e => some (s, e)
    | _, _ => none
  else none

/-- The whole filter pipeline under the default widget selection: all products
selected (line 41) and the default date range. -/
def defaultFiltered (t : Table) : Table :=
  filterTable t (products t) (defaultInterval t)

/-- Unweighted arithmetic mean of the `SENTIMENT_SCORE` values of a group. -/
def meanScore (rows : List Row) : Rat :=
  (rows.map Row.sentiment_score).sum / (rows.length : Rat)

/-- The keys of `groupby("REGION")`: distinct observed regions, sorted
ascending (pandas groupby default `sort=True`). -/
def regionKeys (t : Table) : List String :=
  isort strLe (uniqueFirst (t.rows.map Row.region))

/-- The grouped series `groupby("REGION")['SENTIMENT_SCORE'].mean()`:
one (region, mean) pair per observed region, in key order. -/
def regionGroups (t : Table) : List (String × Rat) :=
  (regionKeys t).map
    (fun k => (k, meanScore (t.rows.filter (fun r => decide (r.region = k)))))

/-- Line 73: `filtered_df.groupby("REGION")['SENTIMENT_SCORE'].mean().sort_values()`. -/
def region_sentiment (t : Table) : List (String × Rat) :=
  isort meanLe (regionGroups t)

/-- The (REGION, PRODUCT, STATUS) groupby key of a row (line 92). -/
def tripleKey (r : Row) : String × String × String :=
  (r.region, r.product, r.status)

/-- The keys of `groupby(['REGION', 'PRODUCT', 'STATUS'])`: distinct observed
triples, sorted (pandas groupby default `sort=True`). -/
def tripleKeys (t : Table) : List (String × String × String) :=
  isort tripleLe (uniqueFirst (t.rows.map tripleKey))

/-- Lines 91-95: `filtered_df.groupby(['REGION','PRODUCT','STATUS'])['SENTIMENT_SCORE'].mean().reset_index()`. -/
def grouped_issues (t : Table) : List ((String × String × String) × Rat) :=
  (tripleKeys t).map
    (fun k => (k, meanScore (t.rows.filter (fun r => decide (tripleKey r = k)))))

/-- Line 72: the region aggregate is computed only under the guard
`if "REGION" in filtered_df.columns`. -/
def regionView (t : Table) : Option (List (String × Rat)) :=
  if t.hasRegion then some (region_sentiment t) else none

/-- Line 90: the triple aggregate is computed only under the guard
`if all(col in filtered_df.columns for col in ["REGION","PRODUCT","STATUS","SENTIMENT_SCORE"])`. -/
def tripleView (t : Table) : Option (List ((String × String × String) × Rat)) :=
  if t.hasRegion && t.hasProduct && t.hasStatus && t.hasSentiment then
    some (grouped_issues t)
  else none

/-- Textual rendering of a `DATE` cell (pandas prints `NaT` for missing). -/
def renderDate : Option Int → String
  | none => "NaT"
  | some d => toString d

/-- Header cells of `to_string`: the names of the present columns. -/
def headerCells (t : Table) : List String :=
  (if t.hasProduct then ["PRODUCT"] else []) ++
    (if t.hasRegion then ["REGION"] else []) ++
    (if t.hasStatus then ["STATUS"] else []) ++
    (if t.hasDate then ["DATE"] else []) ++
    (if t.hasSentiment then ["SENTIMENT_SCORE"] else [])

/-- Cells of one row of `to_string`: the row's values in the present columns. -/
def rowCells (t : Table) (r : Row) : List String :=
  (if t.hasProduct then [r.product] else []) ++
    (if t.hasRegion then [r.region] else []) ++
    (if t.hasStatus then [r.status] else []) ++
    (if t.hasDate then [renderDate r.date] else []) ++
    (if t.hasSentiment then [toString r.sentiment_score] else [])

/-- Join a list of strings with a separator. -/
def joinSep (sep : String) : List String → String
  | [] => ""
  | [a] => a
  | a :: b :: l => a ++ sep ++ joinSep sep (b :: l)

/-- One line of the table rendering for one row. -/
def renderRow (t : Table) (r : Row) : String :=
  joinSep " " (rowCells t r)

/-- Line 120: `filtered_df.to_string(index=False)` — a deterministic textual
rendering of every row and every present column: header line followed by one
line per row, in row order. -/
def to_string (t : Table) : String :=
  joinSep "\n" (joinSep " " (headerCells t) :: t.rows.map (renderRow t))

/-- Line 121: the prompt f-string
`f"Answer this question using the dataset: {user_question} <context>{df_string}</context>"`. -/
def buildPrompt (t : Table) (q : String) : String :=
  "Answer this question using the dataset: " ++ q ++ " <context>" ++
    to_string t ++ "</context>"

/-! ### Basic lemmas about the list helpers -/

theorem mem_uniqueFirst {α : Type} [DecidableEq α] (l : List α) (a : α) :
    a ∈ uniqueFirst l ↔ a ∈ l := by
  induction l using uniqueFirst.induct with
  | case1 => simp [uniqueFirst]
  | case2 b l ih =>
    simp only [uniqueFirst, List.mem_cons, ih, List.mem_filter]
    by_cases h : a = b <;> simp [h]

theorem nodup_uniqueFirst {α : Type} [DecidableEq α] (l : List α) :
    (uniqueFirst l).Nodup := by
  induction l using uniqueFirst.induct with
  | case1 => simp [uniqueFirst]
  | case2 b l ih =>
    rw [uniqueFirst, List.nodup_cons]
    refine ⟨fun hb => ?_, ih⟩
    rw [mem_uniqueFirst, List.mem_filter] at hb
    simp at hb

theorem mem_insertLe {α : Type} (le : α → α → Bool) (a b : α) (l : List α) :
    b ∈ insertLe le a l ↔ b = a ∨ b ∈ l := by
  induction l with
  | nil => simp [insertLe]
  | cons c l ih =>
    rw [insertLe]
    by_cases h : le a c
    · rw [if_pos h]
      simp only [List.mem_cons]
    · rw [if_neg h]
      simp only [List.mem_cons, ih]
      tauto

theorem perm_insertLe {α : Type} (le : α → α → Bool) (a : α) (l : List α) :
    (insertLe le a l).Perm (a :: l) := by
  induction l with
  | nil => exact List.Perm.refl _
  | cons c l ih =>
    rw [insertLe]
    by_cases h : le a c
    · rw [if_pos h]
    · rw [if_neg h]
      exact (ih.cons c).trans (List.Perm.swap a c l)

theorem perm_isort {α : Type} (le : α → α → Bool) (l : List α) :
    (isort le l).Perm l := by
  induction l with
  | nil => exact List.Perm.refl _
  | cons a l ih =>
    exact (perm_insertLe le a (isort le l)).trans (ih.cons a)

theorem mem_isort {α : Type} (le : α → α → Bool) (l : List α) (a : α) :
    a ∈ isort le l ↔ a ∈ l :=
  (perm_isort le l).mem_iff

theorem pairwise_insertLe {α : Type} (le : α → α → Bool)
    (htrans : ∀ a b c, le a b = true → le b c = true → le a c = true)
    (htot : ∀ a b, le a b = false → le b a = true)
    (a : α) (l : List α) (hl : l.Pairwise (fun x y => le x y = true)) :
    (insertLe le a l).Pairwise (fun x y => le x y = true) := by
  induction l with
  | nil => simp [insertLe]
  | cons b l ih =>
    rcases List.pairwise_cons.mp hl with ⟨hb, hl2⟩
    rw [insertLe]
    by_cases h : le a b
    · rw [if_pos h]
      refine List.pairwise_cons.mpr ⟨fun c hc => ?_, hl⟩
      rcases List.mem_cons.mp hc with rfl | hc
      · exact h
      · exact htrans a b c h (hb c hc)
    · rw [if_neg h]
      have hba : le b a = true := htot a b (by simpa using h)
      refine List.pairwise_cons.mpr ⟨fun c hc => ?_, ih hl2⟩
      rcases (mem_insertLe le a c l).mp hc with rfl | hc
      · exact hba
      · exact hb c hc

theorem pairwise_isort {α : Type} (le : α → α → Bool)
    (htrans : ∀ a b c, le a b = true → le b c = true → le a c = true)
    (htot : ∀ a b, le a b = false → le b a = true)
    (l : List α) :
    (isort le l).Pairwise (fun x y => le x y = true) := by
  induction l with
  | nil => simp [isort]
  | cons a l ih => exact pairwise_insertLe le htrans htot a _ ih

theorem nodup_isort {α : Type} (le : α → α → Bool) (l : List α)
    (hl : l.Nodup) : (isort le l).Nodup :=
  (perm_isort le l).symm.nodup hl

theorem minList_eq_none (L : List Int) : minList L = none ↔ L = [] := by
  cases L with
  | nil => simp [minList]
  | cons d L =>
    rw [minList]
    cases minList L <;> simp

theorem minList_le (L : List Int) (m : Int) (h : minList L = some m) :
    ∀ d ∈ L, m ≤ d := by
  induction L generalizing m with
  | nil => simp [minList] at h
  | cons d L ih =>
    intro x hx
    rw [minList] at h
    cases hL : minList L with
    | none =>
      rw [hL] at h
      obtain rfl : d = m := by simpa using h
      rcases List.mem_cons.mp hx with rfl | hx
      · exact le_refl x
      · rw [minList_eq_none] at hL
        simp [hL] at hx
    | some m2 =>
      rw [hL] at h
      obtain rfl : min d m2 = m := by simpa using h
      rcases List.mem_cons.mp hx with rfl | hx
      · exact min_le_left _ _
      · exact le_trans (min_le_right _ _) (ih m2 hL x hx)

theorem maxList_eq_none (L : List Int) : maxList L = none ↔ L = [] := by
  cases L with
  | nil => simp [maxList]
  | cons d L =>
    rw [maxList]
    cases maxList L <;> simp

theorem le_maxList (L : List Int) (m : Int) (h : maxList L = some m) :
    ∀ d ∈ L, d ≤ m := by
  induction L generalizing m with
  | nil => simp [maxList] at h
  | cons d L ih =>
    intro x hx
    rw [maxList] at h
    cases hL : maxList L with
    | none =>
      rw [hL] at h
      obtain rfl : d = m := by simpa using h
      rcases List.mem_cons.mp hx with rfl | hx
      · exact le_refl x
      · rw [maxList_eq_none] at hL
        simp [hL] at hx
    | some m2 =>
      rw [hL] at h
      obtain rfl : max d m2 = m := by simpa using h
      rcases List.mem_cons.mp hx with rfl | hx
      · exact le_max_left _ _
      · exact le_trans (ih m2 hL x hx) (le_max_right _ _)

/-! ### Sortedness of the region aggregate -/

/-- Order in which `sort_values()` (line 73) leaves two grouped entries:
strictly smaller mean first; for equal means, the entry whose region key came
first in the (key-sorted) grouped series stays first. -/
def lexLt (p q : String × Rat) : Prop :=
  p.2 < q.2 ∨ (p.2 = q.2 ∧ p.1 < q.1)

theorem strLe_trans : ∀ a b c : String,
    strLe a b = true → strLe b c = true → strLe a c = true := by
  intro a b c hab hbc
  rw [strLe, decide_eq_true_eq] at *
  exact le_trans hab hbc

theorem strLe_total : ∀ a b : String,
    strLe a b = false → strLe b a = true := by
  intro a b hab
  rw [strLe, decide_eq_true_eq]
  rw [strLe, decide_eq_false_iff_not] at hab
  exact le_of_not_le hab

theorem regionKeys_pairwise_lt (t : Table) :
    (regionKeys t).Pairwise (fun a b : String => a < b) := by
  have hle := pairwise_isort strLe strLe_trans strLe_total
    (uniqueFirst (t.rows.map Row.region))
  have hnd := nodup_isort strLe (uniqueFirst (t.rows.map Row.region))
    (nodup_uniqueFirst _)
  refine (hle.and hnd).imp ?_
  intro a b hab
  exact lt_of_le_of_ne (by simpa [strLe] using hab.1) hab.2

theorem regionGroups_pairwise_keys (t : Table) :
    (regionGroups t).Pairwise (fun p q => p.1 < q.1) := by
  rw [regionGroups, List.pairwise_map]
  exact regionKeys_pairwise_lt t

theorem pairwise_lex_insertLe (a : String × Rat) (l : List (String × Rat))
    (hl : l.Pairwise lexLt) (hk : ∀ b ∈ l, a.1 < b.1) :
    (insertLe meanLe a l).Pairwise lexLt := by
  induction l with
  | nil => simp [insertLe]
  | cons b l ih =>
    rcases List.pairwise_cons.mp hl with ⟨hb, hl2⟩
    rw [insertLe]
    by_cases h : meanLe a b
    · rw [if_pos h]
      have hab : a.2 ≤ b.2 := by simpa [meanLe] using h
      refine List.pairwise_cons.mpr ⟨fun c hc => ?_, hl⟩
      rcases List.mem_cons.mp hc with rfl | hc
      · rcases lt_or_eq_of_le hab with hlt | heq
        · exact Or.inl hlt
        · exact Or.inr ⟨heq, hk c (List.mem_cons_self c l)⟩
      · have hbc := hb c hc
        have hac : a.2 ≤ c.2 := by
          rcases hbc with h1 | ⟨h1, _⟩
          · exact le_of_lt (lt_of_le_of_lt hab h1)
          · exact h1 ▸ hab
        rcases lt_or_eq_of_le hac with hlt | heq
        · exact Or.inl hlt
        · exact Or.inr ⟨heq, hk c (List.mem_cons_of_mem b hc)⟩
    · rw [if_neg h]
      have hba : b.2 < a.2 := by
        have h2 : ¬ a.2 ≤ b.2 := by simpa [meanLe] using h
        exact lt_of_not_le h2
      refine List.pairwise_cons.mpr
        ⟨fun c hc => ?_, ih hl2 (fun x hx => hk x (List.mem_cons_of_mem b hx))⟩
      rcases (mem_insertLe meanLe a c l).mp hc with rfl | hc
      · exact Or.inl hba
      · exact hb c hc

theorem pairwise_lex_isort (l : List (String × Rat))
    (hl : l.Pairwise (fun p q => p.1 < q.1)) :
    (isort meanLe l).Pairwise lexLt := by
  induction l with
  | nil => simp [isort]
  | cons a l ih =>
    rcases List.pairwise_cons.mp hl with ⟨ha, hl2⟩
    rw [isort]
    refine pairwise_lex_insertLe a _ (ih hl2) (fun b hb => ?_)
    exact ha b ((mem_isort meanLe l b).mp hb)

theorem region_sentiment_pairwise_lex (t : Table) :
    (region_sentiment t).Pairwise lexLt :=
  pairwise_lex_isort (regionGroups t) (regionGroups_pairwise_keys t)

/-! ### Rendering lemmas for the prompt builder -/

theorem joinSep_mem_occurs (sep : String) (l : List String) (a : String)
    (h : a ∈ l) :
    ∃ u v : List Char, (joinSep sep l).data = u ++ a.data ++ v := by
  induction l with
  | nil => simp at h
  | cons b l ih =>
    cases l with
    | nil =>
      rcases List.mem_cons.mp h with rfl | h2
      · exact ⟨[], [], by simp [joinSep]⟩
      · simp at h2
    | cons c l2 =>
      rcases List.mem_cons.mp h with rfl | h2
      · refine ⟨[], sep.data ++ (joinSep sep (c :: l2)).data, ?_⟩
        simp [joinSep, String.data_append, List.append_assoc]
      · obtain ⟨u, v, hu⟩ := ih h2
        refine ⟨b.data ++ sep.data ++ u, v, ?_⟩
        simp [joinSep, String.data_append, hu, List.append_assoc]

theorem to_string_row_occurs (t : Table) (r : Row) (h : r ∈ t.rows) :
    ∃ u v : List Char, (to_string t).data = u ++ (renderRow t r).data ++ v := by
  rw [to_string]
  exact joinSep_mem_occurs "\n" _ (renderRow t r)
    (List.mem_cons_of_mem _ (List.mem_map_of_mem (renderRow t) h))

theorem buildPrompt_row_occurs (t : Table) (q : String) (r : Row)
    (h : r ∈ t.rows) :
    ∃ u v : List Char,
      (buildPrompt t q).data = u ++ (renderRow t r).data ++ v := by
  obtain ⟨u, v, hu⟩ := to_string_row_occurs t r h
  refine ⟨("Answer this question using the dataset: " ++ q ++
    " <context>").data ++ u, v ++ ("</context>" : String).data, ?_⟩
  simp [buildPrompt, String.data_append, hu, List.append_assoc]

/-! ### The filter under the default selection -/

theorem product_filter_id (t : Table) :
    t.rows.filter (fun r => decide (r.product ∈ products t)) = t.rows := by
  rw [List.filter_eq_self]
  intro r hr
  rw [decide_eq_true_eq, products, mem_uniqueFirst]
  exact List.mem_map_of_mem Row.product hr

theorem defaultInterval_bounds (t : Table) (s e : Int)
    (h : defaultInterval t = some (s, e)) :
    minDate t = some s ∧ maxDate t = some e := by
  rw [defaultInterval] at h
  by_cases hd : t.hasDate
  · rw [if_pos hd] at h
    cases hm : minDate t with
    | none => rw [hm] at h; cases hM : maxDate t <;> rw [hM] at h <;> simp at h
    | some m =>
      cases hM : maxDate t with
      | none => rw [hm, hM] at h; simp at h
      | some M =>
        rw [hm, hM] at h
        simp only [Option.some_inj, Prod.mk.injEq] at h
        exact ⟨by rw [h.1], by rw [h.2]⟩
  · rw [if_neg hd] at h
    simp at h

theorem defaultInterval_of_not_hasDate (t : Table) (h : t.hasDate = false) :
    defaultInterval t = none := by
  simp [defaultInterval, h]

/-! ### Concrete tables used by witnesses and counterexamples -/

/-- A review with region "B" encountered first. -/
def rowB : Row := ⟨"P1", "B", "ok", some 1, 1/2⟩

/-- A review with region "A" and a parseable date. -/
def rowA1 : Row := ⟨"P1", "A", "ok", some 2, 1/5⟩

/-- A review with region "A" and an unparseable date (`NaT`). -/
def rowA2 : Row := ⟨"P2", "A", "late", none, 4/5⟩

/-- A table with all five columns, one `NaT` date, and a region-mean tie:
region "A" has mean (1/5 + 4/5) / 2 = 1/2, equal to region "B"'s 1/2. -/
def exTable : Table := ⟨true, true, true, true, true, [rowB, rowA1, rowA2]⟩

/-- A table whose `DATE` cells are all parseable. -/
def allDatesTable : Table := ⟨true, true, true, true, true, [rowB, rowA1]⟩

/-- A table without a `DATE` column. -/
def noDateTable : Table := ⟨true, true, true, false, true, [rowB, rowA1, rowA2]⟩

/-! ### Claim theorems -/

/-- C1: for every reviews table, every set of selected products and every
(possibly absent) date interval, every record in the filtered output of the
Filter Engine has its `PRODUCT` value in the selected-product set. -/
theorem filtered_product_in_selected (t : Table) (sel : List String)
    (interval : Option (Int × Int)) :
    ∀ r ∈ (filterTable t sel interval).rows, r.product ∈ sel := by
  intro r hr
  cases interval with
  | none =>
    simp only [filterTable] at hr
    simpa using (List.mem_filter.mp hr).2
  | some p =>
    obtain ⟨s, e⟩ := p
    simp only [filterTable] at hr
    have h1 := (List.mem_filter.mp hr).1
    simpa using (List.mem_filter.mp h1).2

/-- Witness for C1: the first example row survives the filter and its product
is indeed in the selected set. -/
theorem filtered_product_in_selected_witness :
    rowB.product ∈ ["P1", "P2"] :=
  filtered_product_in_selected exTable ["P1", "P2"] none rowB
    (by simp [filterTable, exTable, rowB, rowA1, rowA2])

/-- C2: whenever a date interval `[s, e]` is active, every record in the
filtered output has a parseable `DATE` value `d` with `s ≤ d ≤ e` (so records
with a missing or unparseable `DATE` are excluded); with no interval the
filter reduces to the product predicate alone; and a table without a `DATE`
column never produces a default interval. -/
theorem date_filter_spec (t : Table) (sel : List String) :
    (∀ s e : Int, ∀ r ∈ (filterTable t sel (some (s, e))).rows,
        ∃ d, r.date = some d ∧ s ≤ d ∧ d ≤ e) ∧
    (filterTable t sel none).rows =
      t.rows.filter (fun r => decide (r.product ∈ sel)) ∧
    (t.hasDate = false → defaultInterval t = none) := by
  refine ⟨?_, rfl, defaultInterval_of_not_hasDate t⟩
  intro s e r hr
  simp only [filterTable] at hr
  have h2 := (List.mem_filter.mp hr).2
  rw [datePred] at h2
  cases hd : r.date with
  | none => rw [hd] at h2; simp at h2
  | some d =>
    rw [hd] at h2
    simp only [Bool.and_eq_true, decide_eq_true_eq] at h2
    exact ⟨d, rfl, h2.1, h2.2⟩

/-- Witness for C2: a surviving row under the interval `[1, 2]` has a
parseable in-range date, and the no-`DATE`-column table yields no interval. -/
theorem date_filter_spec_witness :
    (∃ d, rowB.date = some d ∧ (1 : Int) ≤ d ∧ d ≤ 2) ∧
    defaultInterval noDateTable = none :=
  ⟨(date_filter_spec exTable ["P1", "P2"]).1 1 2 rowB
      (by simp [filterTable, datePred, exTable, rowB, rowA1, rowA2]),
    (date_filter_spec noDateTable ["P1"]).2.2 rfl⟩

/-- C7: selecting zero products empties the filtered table, and both
aggregate derivations of an empty filtered table are empty mappings — no
error arises anywhere in the (total) filter/aggregation pipeline. -/
theorem empty_selection_empty_aggregates (t : Table)
    (interval : Option (Int × Int)) :
    (filterTable t [] interval).rows = [] ∧
    region_sentiment (filterTable t [] interval) = [] ∧
    grouped_issues (filterTable t [] interval) = [] := by
  have hrows : (filterTable t [] interval).rows = [] := by
    cases interval with
    | none => simp [filterTable]
    | some p =>
      obtain ⟨s, e⟩ := p
      simp [filterTable]
  refine ⟨hrows, ?_, ?_⟩
  · simp [region_sentiment, regionGroups, regionKeys, hrows, uniqueFirst,
      isort]
  · simp [grouped_issues, tripleKeys, hrows, uniqueFirst, isort]

/-- C8: each aggregate view is computed exactly when its guard columns exist
on the filtered table: `REGION` for the region view, and all of `REGION`,
`PRODUCT`, `STATUS`, `SENTIMENT_SCORE` for the triple view; absence skips the
view (yields no output) rather than raising an error. -/
theorem views_guarded_by_columns (t : Table) :
    (regionView t).isSome = t.hasRegion ∧
    (tripleView t).isSome =
      (t.hasRegion && t.hasProduct && t.hasStatus && t.hasSentiment) := by
  constructor
  · by_cases h : t.hasRegion = true
    · simp [regionView, h]
    · simp only [Bool.not_eq_true] at h
      simp [regionView, h]
  · by_cases h :
      (t.hasRegion && t.hasProduct && t.hasStatus && t.hasSentiment) = true
    · simp [tripleView, h]
    · simp only [Bool.not_eq_true] at h
      simp [tripleView, h]

/-- Counterexample for C3 as stated: `exTable` has a `DATE` column and one
record (`rowA2`) with an unparseable `DATE`; with the default selection (all
products, full observed date range) the filtered output drops that record, so
the round trip does not reproduce the source table. -/
theorem default_roundtrip_counterexample :
    (defaultFiltered exTable).rows ≠ exTable.rows := by
  simp [defaultFiltered, filterTable, products, uniqueFirst, defaultInterval,
    minDate, maxDate, minList, maxList, datePred, exTable, rowB, rowA1, rowA2]

/-- C3 amended: filtering with the default selection (all distinct products,
full observed date range) is the identity on tables that lack a `DATE` column
or whose `DATE` values are all parseable. -/
theorem default_filter_roundtrip (t : Table)
    (h : t.hasDate = false ∨ ∀ r ∈ t.rows, (Row.date r).isSome = true) :
    defaultFiltered t = t := by
  rw [defaultFiltered]
  cases hI : defaultInterval t with
  | none =>
    simp only [filterTable]
    rw [product_filter_id]
  | some p =>
    obtain ⟨s, e⟩ := p
    obtain ⟨hm, hM⟩ := defaultInterval_bounds t s e hI
    rw [minDate] at hm
    rw [maxDate] at hM
    have hdates : ∀ r ∈ t.rows, datePred s e r = true := by
      intro r hr
      rcases h with hfalse | hall
      · rw [defaultInterval_of_not_hasDate t hfalse] at hI
        simp at hI
      · have hsome := hall r hr
        cases hd : r.date with
        | none => rw [hd] at hsome; simp at hsome
        | some d =>
          have hdL : d ∈ t.rows.filterMap Row.date :=
            List.mem_filterMap.mpr ⟨r, hr, hd⟩
          rw [datePred, hd]
          simp only [Bool.and_eq_true, decide_eq_true_eq]
          exact ⟨minList_le _ s hm d hdL, le_maxList _ e hM d hdL⟩
    simp only [filterTable]
    rw [product_filter_id, List.filter_eq_self.mpr hdates]

/-- Witness for C3 amended: on a table whose dates are all parseable, the
default selection reproduces the table exactly. -/
theorem default_filter_roundtrip_witness :
    defaultFiltered allDatesTable = allDatesTable :=
  default_filter_roundtrip allDatesTable
    (Or.inr (by simp [allDatesTable, rowB, rowA1]))

/-- C10: whenever the source table has a `DATE` column (and, as the widget
default presumes, at least one parseable date to take the observed min/max
of), a date interval is active under the default selection, and every record
of the default filtered table has a parseable `DATE` — records with missing
or unparseable dates are excluded even under the unchanged default filter. -/
theorem default_filter_excludes_unparseable (t : Table)
    (hd : t.hasDate = true)
    (hp : ∃ r ∈ t.rows, (Row.date r).isSome = true) :
    (∃ s e : Int, defaultInterval t = some (s, e)) ∧
    ∀ r ∈ (defaultFiltered t).rows, (Row.date r).isSome = true := by
  obtain ⟨r0, hr0, hd0⟩ := hp
  obtain ⟨d0, hd0x⟩ := Option.isSome_iff_exists.mp hd0
  have hL : t.rows.filterMap Row.date ≠ [] :=
    List.ne_nil_of_mem (List.mem_filterMap.mpr ⟨r0, hr0, hd0x⟩)
  obtain ⟨m, hm⟩ : ∃ m, minList (t.rows.filterMap Row.date) = some m := by
    cases hmm : minList (t.rows.filterMap Row.date) with
    | none => exact absurd ((minList_eq_none _).mp hmm) hL
    | some m => exact ⟨m, rfl⟩
  obtain ⟨M, hM⟩ : ∃ M, maxList (t.rows.filterMap Row.date) = some M := by
    cases hmm : maxList (t.rows.filterMap Row.date) with
    | none => exact absurd ((maxList_eq_none _).mp hmm) hL
    | some M => exact ⟨M, rfl⟩
  have hI : defaultInterval t = some (m, M) := by
    rw [defaultInterval, if_pos hd]
    simp [minDate, maxDate, hm, hM]
  refine ⟨⟨m, M, hI⟩, ?_⟩
  intro r hr
  rw [defaultFiltered, hI] at hr
  simp only [filterTable] at hr
  have h2 := (List.mem_filter.mp hr).2
  rw [datePred] at h2
  cases hdate : r.date with
  | none => rw [hdate] at h2; simp at h2
  | some d => simp [hdate]

/-- Witness for C10: `exTable` has a `DATE` column and a parseable date, and
the surviving example row indeed has a parseable date. -/
theorem default_filter_excludes_unparseable_witness :
    exTable.hasDate = true ∧ (Row.date rowB).isSome = true :=
  ⟨rfl,
    (default_filter_excludes_unparseable exTable rfl
        ⟨rowB, by simp [exTable], by simp [rowB]⟩).2 rowB
      (by simp [defaultFiltered, filterTable, products, uniqueFirst,
        defaultInterval, minDate, maxDate, minList, maxList, datePred,
        exTable, rowB, rowA1, rowA2])⟩

/-- C4: the region aggregate pairs each region with the arithmetic mean of
`SENTIMENT_SCORE` over the filtered records of that region, covers exactly
the observed regions, and its entries are sorted ascending by mean score. -/
theorem region_aggregate_spec (t : Table) :
    (region_sentiment t).Pairwise (fun p q => p.2 ≤ q.2) ∧
    (∀ p ∈ region_sentiment t,
        p.2 = meanScore (t.rows.filter (fun r => decide (r.region = p.1))) ∧
        ∃ r ∈ t.rows, r.region = p.1) ∧
    (∀ r ∈ t.rows, ∃ p ∈ region_sentiment t, p.1 = r.region) := by
  refine ⟨?_, ?_, ?_⟩
  · refine (region_sentiment_pairwise_lex t).imp ?_
    intro p q hpq
    rcases hpq with h1 | ⟨h1, _⟩
    · exact le_of_lt h1
    · exact le_of_eq h1
  · intro p hp
    rw [region_sentiment, mem_isort, regionGroups] at hp
    obtain ⟨k, hk, rfl⟩ := List.mem_map.mp hp
    refine ⟨rfl, ?_⟩
    rw [regionKeys, mem_isort, mem_uniqueFirst] at hk
    obtain ⟨r, hr, hrk⟩ := List.mem_map.mp hk
    exact ⟨r, hr, hrk⟩
  · intro r hr
    have hk : r.region ∈ regionKeys t := by
      rw [regionKeys, mem_isort, mem_uniqueFirst]
      exact List.mem_map_of_mem Row.region hr
    refine ⟨(r.region,
      meanScore (t.rows.filter (fun x => decide (x.region = r.region)))),
      ?_, rfl⟩
    rw [region_sentiment, mem_isort, regionGroups]
    exact List.mem_map.mpr ⟨r.region, hk, rfl⟩

/-- Witness for C4: the region of a concrete row appears in the aggregate. -/
theorem region_aggregate_spec_witness :
    ∃ p ∈ region_sentiment exTable, p.1 = rowB.region :=
  (region_aggregate_spec exTable).2.2 rowB (by simp [exTable])

/-- Counterexample for C5: in `exTable` the filtered input encounters region
"B" first (row order B, A, A) and regions "A" and "B" have exactly equal mean
1/2, yet the sorted aggregate lists "A" before "B" — because `groupby` sorts
its keys alphabetically before `sort_values` runs, the tie is broken by
region name, not by first-encountered input order as the claim states. -/
theorem region_tie_counterexample :
    exTable.rows.map Row.region = ["B", "A", "A"] ∧
    region_sentiment exTable = [("A", 1/2), ("B", 1/2)] := by
  constructor
  · simp [exTable, rowB, rowA1, rowA2]
  · simp [region_sentiment, regionGroups, regionKeys, isort, insertLe, strLe,
      meanLe, uniqueFirst, meanScore, exTable, rowB, rowA1, rowA2]
    norm_num

/-- C5 amended: in the sorted region aggregate, regions with strictly smaller
mean come first, and regions with exactly equal mean keep the ascending
region-name order produced by the groupby key sort (first-encountered input
order plays no role). -/
theorem region_tie_order_lex (t : Table) :
    (region_sentiment t).Pairwise
      (fun p q => p.2 < q.2 ∨ (p.2 = q.2 ∧ p.1 < q.1)) :=
  region_sentiment_pairwise_lex t

/-- C6: the Region×Product×Status aggregate contains only (region, product,
status) triples observed in the filtered input, has exactly one group per
distinct observed triple, and every emitted group has at least one matching
record — no NaN or zero placeholder row for an empty group. -/
theorem triple_aggregate_spec (t : Table) :
    (∀ p ∈ grouped_issues t,
        (∃ r ∈ t.rows, tripleKey r = p.1) ∧
        t.rows.filter (fun r => decide (tripleKey r = p.1)) ≠ []) ∧
    (grouped_issues t).length = ((t.rows.map tripleKey).dedup).length := by
  constructor
  · intro p hp
    rw [grouped_issues] at hp
    obtain ⟨k, hk, rfl⟩ := List.mem_map.mp hp
    rw [tripleKeys, mem_isort, mem_uniqueFirst] at hk
    obtain ⟨r, hr, hrk⟩ := List.mem_map.mp hk
    refine ⟨⟨r, hr, hrk⟩, ?_⟩
    apply List.ne_nil_of_mem (a := r)
    rw [List.mem_filter]
    exact ⟨hr, by simpa using hrk⟩
  · rw [grouped_issues, List.length_map, tripleKeys]
    rw [(perm_isort tripleLe (uniqueFirst (t.rows.map tripleKey))).length_eq]
    have hperm : (uniqueFirst (t.rows.map tripleKey)).Perm
        ((t.rows.map tripleKey).dedup) := by
      apply List.perm_of_nodup_nodup_toFinset_eq (nodup_uniqueFirst _)
        (List.nodup_dedup _)
      ext a
      simp [List.mem_toFinset, mem_uniqueFirst, List.mem_dedup]
    exact hperm.length_eq

/-- Witness for C6 at a concrete aggregate group. -/
theorem triple_aggregate_spec_witness :
    (∃ r ∈ exTable.rows,
        tripleKey r = (("B", "P1", "ok") : String × String × String)) ∧
    exTable.rows.filter
      (fun r =>
        decide (tripleKey r = (("B", "P1", "ok") : String × String × String)))
      ≠ [] :=
  (triple_aggregate_spec exTable).1 (("B", "P1", "ok"), 1/2)
    (by
      rw [grouped_issues]
      refine List.mem_map.mpr ⟨("B", "P1", "ok"), ?_, ?_⟩
      · rw [tripleKeys, mem_isort, mem_uniqueFirst]
        exact List.mem_map.mpr ⟨rowB, by simp [exTable], rfl⟩
      · simp only [Prod.mk.injEq]
        refine ⟨trivial, ?_⟩
        simp [meanScore, tripleKey, exTable, rowB, rowA1, rowA2])

/-- C9: for every filtered table and non-empty question, the prompt is the
question verbatim (preceded by a fixed instruction) followed by the rendering
of the full filtered table wrapped in the `<context>` markers; every row's
rendering occurs in the prompt string; and the builder is deterministic —
equal table and question give byte-identical prompts. -/
theorem prompt_builder_spec (t : Table) (q : String) (_hq : q ≠ "") :
    (∃ a b : String, buildPrompt t q = a ++ q ++ b ∧
        b = " <context>" ++ to_string t ++ "</context>") ∧
    (∀ r ∈ t.rows, ∃ u v : List Char,
        (buildPrompt t q).data = u ++ (renderRow t r).data ++ v) ∧
    (∀ t2 q2, t2 = t → q2 = q → buildPrompt t2 q2 = buildPrompt t q) := by
  refine ⟨⟨"Answer this question using the dataset: ",
    " <context>" ++ to_string t ++ "</context>", ?_, rfl⟩, ?_, ?_⟩
  · rw [buildPrompt]
    simp [String.append_assoc]
  · intro r hr
    exact buildPrompt_row_occurs t q r hr
  · intro t2 q2 ht hq2
    rw [ht, hq2]

/-- Witness for C9 with a concrete table and question. -/
theorem prompt_builder_spec_witness :
    ("why" : String) ≠ "" ∧
    (∃ a b : String, buildPrompt exTable "why" = a ++ "why" ++ b ∧
        b = " <context>" ++ to_string exTable ++ "</context>") :=
  ⟨by decide, (prompt_builder_spec exTable "why" (by decide)).1⟩

end ShippingApp
